import Mathlib

/-!
Verification of the pose-retargeting engine of `webcam_to_avatar`.

The development shallowly embeds the TypeScript sources:
JavaScript numbers are modelled as exact rationals where the code only
compares and combines them linearly (keypoint coordinates, confidence
scores) and as real numbers where the code applies transcendental
functions (`Math.atan2`, `Math.sqrt`, trigonometry for quaternions).
Mutation of the rig and of the rest-pose cache is modelled by explicit
state passing: a rig is a finite map from bone names to the optional
current local-rotation quaternion (`none` models an unresolvable bone),
and the cache is a map from bone names to the optional cached quaternion.
-/

/-- One detected landmark, as produced by the pose detector:
`{ name, x, y, score }`.  The detector may omit the score, which the code
reads as `kp.score ?? 0`. -/
structure Keypoint where
  name : String
  x : ℚ
  y : ℚ
  score : Option ℚ
deriving DecidableEq, Repr

/-- The VRM bone names controlled by the engine
(the keys of `VRM_BONE_NAMES` in the source). -/
inductive BoneName where
  | hips | spine | chest | upperChest | neck | head
  | leftUpperArm | leftLowerArm | rightUpperArm | rightLowerArm
  | leftUpperLeg | leftLowerLeg | rightUpperLeg | rightLowerLeg
deriving DecidableEq, Repr

/-- The key list of `VRM_BONE_NAMES`, in source order; `Object.keys` of the
bone table iterates over exactly these fourteen names. -/
def boneList : List BoneName :=
  [BoneName.hips, BoneName.spine, BoneName.chest, BoneName.upperChest,
   BoneName.neck, BoneName.head,
   BoneName.leftUpperArm, BoneName.leftLowerArm,
   BoneName.rightUpperArm, BoneName.rightLowerArm,
   BoneName.leftUpperLeg, BoneName.leftLowerLeg,
   BoneName.rightUpperLeg, BoneName.rightLowerLeg]

theorem mem_boneList (b : BoneName) : b ∈ boneList := by
  cases b <;> decide

/-- A quaternion, component order as in three.js (`_x, _y, _z, _w`). -/
structure Quat where
  x : ℝ
  y : ℝ
  z : ℝ
  w : ℝ

/-- An Euler rotation; the code always builds `new THREE.Euler(x, y, z)`
with the default (and in `rigRotation` the explicit) order `XYZ`. -/
structure Euler where
  x : ℝ
  y : ℝ
  z : ℝ

/-- A 2D vector (`THREE.Vector2`). -/
structure Vec2 where
  x : ℝ
  y : ℝ

/-- The rig: for each controlled bone, the quaternion of the resolved node,
or `none` when `getNormalizedBoneNode` returns no node. -/
def Rig := BoneName → Option Quat

/-- The rest-pose cache (`BoneInitialRotations`):
for each bone, the cached initial local rotation if one was captured. -/
def RigMap := BoneName → Option Quat

/-- A fresh, empty cache (`new Map()`). -/
def emptyRigMap : RigMap := fun _ => none

/-- Models `initialMap.size === 0`; the cache only ever holds keys from
`VRM_BONE_NAMES`, so it is empty exactly when every bone maps to `none`. -/
def mapIsEmpty (m : RigMap) : Bool :=
  boneList.all fun b => (m b).isNone

/-- The confidence threshold `MIN_KEYPOINT_SCORE = 0.3`. -/
def MIN_KEYPOINT_SCORE : ℚ := 0.3

/-- `getKeypoint(keypoints, name, minScore)`: find the first keypoint with
the given name and require `(kp.score ?? 0) >= minScore`, else `null`. -/
def getKeypoint (keypoints : List Keypoint) (name : String) (minScore : ℚ) :
    Option Keypoint :=
  match keypoints.find? (fun k => k.name = name) with
  | none => none
  | some kp => if kp.score.getD 0 < minScore then none else some kp

/-- `THREE.MathUtils.clamp(value, min, max) = Math.max(min, Math.min(max, value))`;
the local `clamp` helper of the second source variant is the same expression. -/
noncomputable def clamp (value lo hi : ℝ) : ℝ :=
  max lo (min hi value)

theorem clamp_of_mem (value lo hi : ℝ) (h1 : lo ≤ value) (h2 : value ≤ hi) :
    clamp value lo hi = value := by
  unfold clamp
  rw [min_eq_right h2, max_eq_right h1]

/-- `Math.atan2(y, x)`: the signed angle of the vector `(x, y)`, in
`(-π, π]` for nonzero input and `0` at the origin. -/
noncomputable def atan2 (y x : ℝ) : ℝ :=
  if 0 < x then Real.arctan (y / x)
  else if x < 0 then
    (if 0 ≤ y then Real.arctan (y / x) + Real.pi
     else Real.arctan (y / x) - Real.pi)
  else
    (if 0 < y then Real.pi / 2
     else if y < 0 then -(Real.pi / 2)
     else 0)

theorem atan2_zero_of_pos (y x : ℝ) (hy : y = 0) (hx : 0 < x) :
    atan2 y x = 0 := by
  unfold atan2
  rw [if_pos hx, hy, zero_div, Real.arctan_zero]

theorem atan2_pos_of_zero (y x : ℝ) (hy : 0 < y) (hx : x = 0) :
    atan2 y x = Real.pi / 2 := by
  unfold atan2
  rw [hx]
  simp [lt_irrefl, hy]

/-- `atan2` is invariant under scaling the input vector by a positive
constant. -/
theorem atan2_scale (c y x : ℝ) (hc : 0 < c) :
    atan2 (c * y) (c * x) = atan2 y x := by
  unfold atan2
  have hdiv : c * y / (c * x) = y / x := mul_div_mul_left y x (ne_of_gt hc)
  rcases lt_trichotomy 0 x with hx | hx | hx
  · rw [if_pos hx, if_pos (mul_pos hc hx), hdiv]
  · rw [← hx, mul_zero]
    simp only [lt_irrefl, if_false]
    have h1 : (0 < c * y) ↔ (0 < y) := by
      constructor
      · intro h; nlinarith
      · intro h; exact mul_pos hc h
    have h2 : (c * y < 0) ↔ (y < 0) := by
      constructor
      · intro h; nlinarith
      · intro h; nlinarith
    by_cases hy : 0 < y
    · rw [if_pos hy, if_pos (h1.mpr hy)]
    · rw [if_neg hy, if_neg (fun h => hy (h1.mp h))]
      by_cases hy2 : y < 0
      · rw [if_pos hy2, if_pos (h2.mpr hy2)]
      · rw [if_neg hy2, if_neg (fun h => hy2 (h2.mp h))]
  · have hcx : c * x < 0 := mul_neg_of_pos_of_neg hc hx
    rw [if_neg (asymm hx), if_neg (asymm hcx), if_pos hx, if_pos hcx]
    have h3 : (0 ≤ c * y) ↔ (0 ≤ y) := by
      constructor
      · intro h; nlinarith
      · intro h; exact mul_nonneg (le_of_lt hc) h
    by_cases hy : 0 ≤ y
    · rw [if_pos hy, if_pos (h3.mpr hy), hdiv]
    · rw [if_neg hy, if_neg (fun h => hy (h3.mp h)), hdiv]

/-- `atan2` always lands in the interval `(-π, π]`. -/
theorem atan2_mem_Ioc (y x : ℝ) :
    -Real.pi < atan2 y x ∧ atan2 y x ≤ Real.pi := by
  have hpi : 0 < Real.pi := Real.pi_pos
  have harc_lt : ∀ t : ℝ, Real.arctan t < Real.pi / 2 :=
    fun t => Real.arctan_lt_pi_div_two t
  have harc_gt : ∀ t : ℝ, -(Real.pi / 2) < Real.arctan t :=
    fun t => Real.neg_pi_div_two_lt_arctan t
  unfold atan2
  rcases lt_trichotomy 0 x with hx | hx | hx
  · rw [if_pos hx]
    constructor
    · linarith [harc_gt (y / x)]
    · linarith [harc_lt (y / x)]
  · rw [← hx]
    simp only [lt_irrefl, if_false]
    by_cases hy : 0 < y
    · rw [if_pos hy]; constructor <;> linarith
    · rw [if_neg hy]
      by_cases hy2 : y < 0
      · rw [if_pos hy2]; constructor <;> linarith
      · rw [if_neg hy2]; constructor <;> linarith
  · rw [if_neg (asymm hx), if_pos hx]
    by_cases hy : 0 ≤ y
    · rw [if_pos hy]
      have hq : y / x ≤ 0 := div_nonpos_of_nonneg_of_nonpos hy (le_of_lt hx)
      have : Real.arctan (y / x) ≤ 0 := by
        have := Real.arctan_strictMono.monotone hq
        rwa [Real.arctan_zero] at this
      constructor
      · linarith [harc_gt (y / x)]
      · linarith
    · rw [if_neg hy]
      push_neg at hy
      have hq : 0 < y / x := div_pos_iff.mpr (Or.inr ⟨hy, hx⟩)
      have : 0 < Real.arctan (y / x) := by
        have := Real.arctan_strictMono hq
        rwa [Real.arctan_zero] at this
      constructor
      · linarith
      · linarith [harc_lt (y / x)]

/-- `vec2FromKeypoints(a, b)`: the normalized 2D vector from keypoint `a`
to keypoint `b`; when `v.lengthSq() === 0` the zero vector is returned
instead of dividing by zero. -/
noncomputable def vec2FromKeypoints (a b : Keypoint) : Vec2 :=
  if (b.x - a.x) * (b.x - a.x) + (b.y - a.y) * (b.y - a.y) = 0 then ⟨0, 0⟩
  else
    let dx : ℝ := ((b.x - a.x : ℚ) : ℝ)
    let dy : ℝ := ((b.y - a.y : ℚ) : ℝ)
    let len : ℝ := Real.sqrt (dx * dx + dy * dy)
    ⟨dx / len, dy / len⟩

/-- `signedAngleBetweenVecs2D(a, b)`: `0` when either vector is zero,
otherwise `atan2(cross, dot)` of the two normalized vectors, with the dot
product clamped to `[-1, 1]`. -/
noncomputable def signedAngleBetweenVecs2D (a b : Vec2) : ℝ :=
  if a.x * a.x + a.y * a.y = 0 ∨ b.x * b.x + b.y * b.y = 0 then 0
  else
    let la : ℝ := Real.sqrt (a.x * a.x + a.y * a.y)
    let lb : ℝ := Real.sqrt (b.x * b.x + b.y * b.y)
    let a1 : ℝ := a.x / la
    let a2 : ℝ := a.y / la
    let b1 : ℝ := b.x / lb
    let b2 : ℝ := b.y / lb
    let dot : ℝ := clamp (a1 * b1 + a2 * b2) (-1) 1
    let cross : ℝ := a1 * b2 - a2 * b1
    atan2 cross dot

/-- `a.multiply(b)` on three.js quaternions (Hamilton product). -/
noncomputable def quatMultiply (a b : Quat) : Quat :=
  ⟨a.x * b.w + a.w * b.x + a.y * b.z - a.z * b.y,
   a.y * b.w + a.w * b.y + a.z * b.x - a.x * b.z,
   a.z * b.w + a.w * b.z + a.x * b.y - a.y * b.x,
   a.w * b.w - a.x * b.x - a.y * b.y - a.z * b.z⟩

/-- `new THREE.Quaternion().setFromEuler(e)` for the default order `XYZ`. -/
noncomputable def quaternionSetFromEuler (e : Euler) : Quat :=
  let c1 := Real.cos (e.x / 2)
  let c2 := Real.cos (e.y / 2)
  let c3 := Real.cos (e.z / 2)
  let s1 := Real.sin (e.x / 2)
  let s2 := Real.sin (e.y / 2)
  let s3 := Real.sin (e.z / 2)
  ⟨s1 * c2 * c3 + c1 * s2 * s3,
   c1 * s2 * c3 - s1 * c2 * s3,
   c1 * c2 * s3 + s1 * s2 * c3,
   c1 * c2 * c3 - s1 * s2 * s3⟩

/-- `cacheInitialBoneRotations(vrm, map)`: for every bone name in
`VRM_BONE_NAMES` whose node resolves, store its current quaternion in the
cache; modelled pointwise since the `forEach` visits each bone exactly
once. -/
def cacheInitialBoneRotations (rig : Rig) (m : RigMap) : RigMap :=
  fun b => match rig b with
  | some q => some q
  | none => m b

/-- `resetBonesToInitial(vrm, map)`: for every bone whose node resolves and
whose initial rotation was cached, copy the cached quaternion back onto the
node; all other bones are untouched. -/
def resetBonesToInitial (rig : Rig) (m : RigMap) : Rig :=
  fun b => match rig b, m b with
  | some _, some initial => some initial
  | _, _ => rig b

/-- `setLocalEulerDelta(vrm, map, bone, deltaEuler)`: when both the node
and the cached initial rotation exist, set the node quaternion to
`initial.clone().multiply(quaternion-of-deltaEuler)`; otherwise return
without touching the rig. -/
noncomputable def setLocalEulerDelta (rig : Rig) (m : RigMap)
    (bone : BoneName) (deltaEuler : Euler) : Rig :=
  match rig bone, m bone with
  | some _, some initial =>
      fun b => if b = bone then
        some (quatMultiply initial (quaternionSetFromEuler deltaEuler))
      else rig b
  | _, _ => rig

theorem setLocalEulerDelta_ne (rig : Rig) (m : RigMap) (bone : BoneName)
    (e : Euler) (b : BoneName) (hb : b ≠ bone) :
    setLocalEulerDelta rig m bone e b = rig b := by
  unfold setLocalEulerDelta
  rcases h1 : rig bone with _ | q1 <;> rcases h2 : m bone with _ | q2 <;>
    simp [hb]

theorem setLocalEulerDelta_self (rig : Rig) (m : RigMap) (bone : BoneName)
    (e : Euler) (q0 qi : Quat) (h1 : rig bone = some q0)
    (h2 : m bone = some qi) :
    setLocalEulerDelta rig m bone e bone =
      some (quatMultiply qi (quaternionSetFromEuler e)) := by
  unfold setLocalEulerDelta
  rw [h1, h2]
  simp

theorem setLocalEulerDelta_isSome (rig : Rig) (m : RigMap) (bone : BoneName)
    (e : Euler) (b : BoneName) :
    ((setLocalEulerDelta rig m bone e) b).isSome = ((rig b)).isSome := by
  unfold setLocalEulerDelta
  rcases h1 : rig bone with _ | q1 <;> rcases h2 : m bone with _ | q2 <;>
    try rfl
  by_cases hb : b = bone
  · subst hb; rw [h1]; simp
  · simp [hb]

theorem resetBonesToInitial_isSome (rig : Rig) (m : RigMap) (b : BoneName) :
    ((resetBonesToInitial rig m) b).isSome = ((rig b)).isSome := by
  unfold resetBonesToInitial
  rcases h1 : rig b with _ | q1 <;> rcases h2 : m b with _ | q2 <;> rfl

/-- The camera frame height `VIDEO_HEIGHT = 480` used to normalize the
vertical nose offset. -/
def VIDEO_HEIGHT : ℚ := 480

/-- The synthesized midpoint keypoint (`mid_hip` / `mid_shoulder`):
average position, minimum of the two scores with `?? 0` defaulting. -/
def midKeypoint (nm : String) (a b : Keypoint) : Keypoint :=
  ⟨nm, (a.x + b.x) / 2, (a.y + b.y) / 2,
   some (min (a.score.getD 0) (b.score.getD 0))⟩

/-- `torsoPitch = clamp(-torsoVec.y * 0.5, -0.6, 0.6)` where `torsoVec` is
the normalized vector from the hip midpoint to the shoulder midpoint. -/
noncomputable def torsoPitch (lS rS lH rH : Keypoint) : ℝ :=
  clamp (-(vec2FromKeypoints (midKeypoint "mid_hip" lH rH)
            (midKeypoint "mid_shoulder" lS rS)).y * 0.5) (-0.6) 0.6

/-- `headYaw = clamp(signedAngle((1,0), shouldersVec) * 0.5, -0.6, 0.6)`. -/
noncomputable def headYaw (lS rS : Keypoint) : ℝ :=
  clamp (signedAngleBetweenVecs2D ⟨1, 0⟩ (vec2FromKeypoints lS rS) * 0.5)
    (-0.6) 0.6

/-- `headPitch = clamp(((midShoulder.y - nose.y) / VIDEO_HEIGHT) * 2.0, -0.5, 0.5)`. -/
noncomputable def headPitch (lS rS n : Keypoint) : ℝ :=
  clamp ((((midKeypoint "mid_shoulder" lS rS).y : ℚ) - (n.y : ℚ) :
      ℚ) / (VIDEO_HEIGHT : ℝ) * 2.0) (-0.5) 0.5

/-- `leftAbduction = clamp(-signedAngle((-1,0), shoulder→elbow), -π/2, π/2)`. -/
noncomputable def leftAbduction (lS e : Keypoint) : ℝ :=
  clamp (-(signedAngleBetweenVecs2D ⟨-1, 0⟩ (vec2FromKeypoints lS e)))
    (-(Real.pi / 2)) (Real.pi / 2)

/-- `rightAbduction = clamp(signedAngle((1,0), shoulder→elbow), -π/2, π/2)`. -/
noncomputable def rightAbduction (rS e : Keypoint) : ℝ :=
  clamp (signedAngleBetweenVecs2D ⟨1, 0⟩ (vec2FromKeypoints rS e))
    (-(Real.pi / 2)) (Real.pi / 2)

/-- Leg flexion `clamp(signedAngle((0,1), hip→knee), -0.7, 0.7)`; the same
formula is used for `leftFlex` and `rightFlex`. -/
noncomputable def legFlex (hip knee : Keypoint) : ℝ :=
  clamp (signedAngleBetweenVecs2D ⟨0, 1⟩ (vec2FromKeypoints hip knee))
    (-0.7) 0.7

/-- The straight-line body of `applyPoseToVRMFromKeypoints` after the torso
gate has passed: torso always, then head, arms and legs each only when
their optional keypoints are present. -/
noncomputable def applyPoseSolvedSegments (rig : Rig) (m : RigMap)
    (lS rS lH rH : Keypoint) (nose le re lk rk : Option Keypoint) : Rig :=
  let tp := torsoPitch lS rS lH rH
  let r1 := setLocalEulerDelta rig m BoneName.hips ⟨tp * 0.3, 0, 0⟩
  let r2 := setLocalEulerDelta r1 m BoneName.spine ⟨tp * 0.4, 0, 0⟩
  let r3 := setLocalEulerDelta r2 m BoneName.chest ⟨tp * 0.3, 0, 0⟩
  let r4 := match nose with
    | some n =>
        let hy := headYaw lS rS
        let hp := headPitch lS rS n
        let r4a := setLocalEulerDelta r3 m BoneName.neck
          ⟨hp * 0.3, hy * 0.3, 0⟩
        setLocalEulerDelta r4a m BoneName.head ⟨hp * 0.7, hy * 0.7, 0⟩
    | none => r3
  let r5 := match le with
    | some e => setLocalEulerDelta r4 m BoneName.leftUpperArm
        ⟨0, 0, leftAbduction lS e⟩
    | none => r4
  let r6 := match re with
    | some e => setLocalEulerDelta r5 m BoneName.rightUpperArm
        ⟨0, 0, rightAbduction rS e⟩
    | none => r5
  let r7 := match lk with
    | some k => setLocalEulerDelta r6 m BoneName.leftUpperLeg
        ⟨legFlex lH k, 0, 0⟩
    | none => r6
  match rk with
    | some k => setLocalEulerDelta r7 m BoneName.rightUpperLeg
        ⟨legFlex rH k, 0, 0⟩
    | none => r7

/-- The rest-pose cache as it stands after the capture-on-first-use step at
the top of `applyPoseToVRMFromKeypoints`: an empty incoming cache is filled
by `cacheInitialBoneRotations`, a non-empty one is used as is. -/
def effectiveMap (rig : Rig) (m0 : RigMap) : RigMap :=
  if mapIsEmpty m0 then cacheInitialBoneRotations rig m0 else m0

/-- The per-frame entry point `applyPoseToVRMFromKeypoints(vrm, keypoints,
initialMap)` of the engine.  The mutable `initialMap` argument is modelled
by returning the updated cache next to the updated rig.  The source first
caches the rest pose when the cache is empty and returns if it is still
empty afterwards; since a non-empty incoming cache is unchanged by that
step, this is the `if mapIsEmpty` chain below.  A missing torso keypoint
(after gating) resets every bone to the cached rest pose and returns. -/
noncomputable def applyPoseToVRMFromKeypoints (rig : Rig)
    (keypoints : List Keypoint) (m0 : RigMap) : Rig × RigMap :=
  let m := effectiveMap rig m0
  if mapIsEmpty m then (rig, m)
  else
    match getKeypoint keypoints "left_shoulder" MIN_KEYPOINT_SCORE,
        getKeypoint keypoints "right_shoulder" MIN_KEYPOINT_SCORE,
        getKeypoint keypoints "left_hip" MIN_KEYPOINT_SCORE,
        getKeypoint keypoints "right_hip" MIN_KEYPOINT_SCORE with
    | some lS, some rS, some lH, some rH =>
        (applyPoseSolvedSegments rig m lS rS lH rH
          (getKeypoint keypoints "nose" MIN_KEYPOINT_SCORE)
          (getKeypoint keypoints "left_elbow" MIN_KEYPOINT_SCORE)
          (getKeypoint keypoints "right_elbow" MIN_KEYPOINT_SCORE)
          (getKeypoint keypoints "left_knee" MIN_KEYPOINT_SCORE)
          (getKeypoint keypoints "right_knee" MIN_KEYPOINT_SCORE), m)
    | _, _, _, _ => (resetBonesToInitial rig m, m)

/-- The minimum-keypoint gate: both shoulders and both hips survive the
confidence gating. -/
def torsoGatePasses (keypoints : List Keypoint) : Bool :=
  (getKeypoint keypoints "left_shoulder" MIN_KEYPOINT_SCORE).isSome &&
  (getKeypoint keypoints "right_shoulder" MIN_KEYPOINT_SCORE).isSome &&
  (getKeypoint keypoints "left_hip" MIN_KEYPOINT_SCORE).isSome &&
  (getKeypoint keypoints "right_hip" MIN_KEYPOINT_SCORE).isSome

theorem mapIsEmpty_none (m : RigMap) (h : mapIsEmpty m = true) (b : BoneName) :
    m b = none := by
  have := List.all_eq_true.mp h b (mem_boneList b)
  exact Option.isNone_iff_eq_none.mp (by exact this)

theorem resetBonesToInitial_of_none (rig : Rig) (m : RigMap) (b : BoneName)
    (h : m b = none) : resetBonesToInitial rig m b = rig b := by
  unfold resetBonesToInitial
  rw [h]
  cases rig b <;> rfl

theorem resetBonesToInitial_some (rig : Rig) (m : RigMap) (b : BoneName)
    (q : Quat) (h1 : (rig b).isSome) (h2 : m b = some q) :
    resetBonesToInitial rig m b = some q := by
  unfold resetBonesToInitial
  rcases hq : rig b with _ | q0
  · rw [hq] at h1; simp at h1
  · rw [h2]

/-- The second component returned by the entry point is always the
effective cache. -/
theorem applyPose_snd (rig : Rig) (keypoints : List Keypoint) (m0 : RigMap) :
    (applyPoseToVRMFromKeypoints rig keypoints m0).2 = effectiveMap rig m0 := by
  unfold applyPoseToVRMFromKeypoints
  by_cases hem : mapIsEmpty (effectiveMap rig m0)
  · simp [hem]
  · simp only [hem, Bool.false_eq_true, if_false]
    rcases getKeypoint keypoints "left_shoulder" MIN_KEYPOINT_SCORE with _ | lS <;>
      rcases getKeypoint keypoints "right_shoulder" MIN_KEYPOINT_SCORE with _ | rS <;>
      rcases getKeypoint keypoints "left_hip" MIN_KEYPOINT_SCORE with _ | lH <;>
      rcases getKeypoint keypoints "right_hip" MIN_KEYPOINT_SCORE with _ | rH <;>
      rfl

/-- C1.  Gate correctness / `Tracking → Lost`: whenever the frame, after
confidence gating, is missing one of the two shoulders or two hips, the
per-frame entry point leaves the rig exactly in the reset state: every
managed bone with a cached rest rotation is set to exactly that cached
quaternion, and no bone is left at a solved target. -/
theorem gateFail_resets_all_bones (rig : Rig) (m0 : RigMap)
    (keypoints : List Keypoint) (h : torsoGatePasses keypoints = false) :
    (∀ b, (applyPoseToVRMFromKeypoints rig keypoints m0).1 b =
        resetBonesToInitial rig (effectiveMap rig m0) b) ∧
    (∀ b q, effectiveMap rig m0 b = some q → ((rig b)).isSome →
        (applyPoseToVRMFromKeypoints rig keypoints m0).1 b = some q) := by
  have hmain : ∀ b, (applyPoseToVRMFromKeypoints rig keypoints m0).1 b =
      resetBonesToInitial rig (effectiveMap rig m0) b := by
    intro b
    unfold applyPoseToVRMFromKeypoints
    by_cases hem : mapIsEmpty (effectiveMap rig m0)
    · simp only [hem, if_true]
      rw [resetBonesToInitial_of_none rig _ b (mapIsEmpty_none _ hem b)]
    · simp only [hem, Bool.false_eq_true, if_false]
      rcases hls : getKeypoint keypoints "left_shoulder" MIN_KEYPOINT_SCORE with _ | lS <;>
        rcases hrs : getKeypoint keypoints "right_shoulder" MIN_KEYPOINT_SCORE with _ | rS <;>
        rcases hlh : getKeypoint keypoints "left_hip" MIN_KEYPOINT_SCORE with _ | lH <;>
        rcases hrh : getKeypoint keypoints "right_hip" MIN_KEYPOINT_SCORE with _ | rH <;>
        try rfl
      exfalso
      have hT : torsoGatePasses keypoints = true := by
        unfold torsoGatePasses
        rw [hls, hrs, hlh, hrh]
        rfl
      rw [hT] at h
      simp at h
  constructor
  · exact hmain
  · intro b q hq hs
    rw [hmain b]
    exact resetBonesToInitial_some rig _ b q hs hq

theorem resetBonesToInitial_of_rig_none (rig : Rig) (m : RigMap)
    (b : BoneName) (h : rig b = none) :
    resetBonesToInitial rig m b = rig b := by
  unfold resetBonesToInitial
  rw [h]

theorem cacheInitialBoneRotations_idem (rig : Rig) (b : BoneName) :
    cacheInitialBoneRotations rig (cacheInitialBoneRotations rig emptyRigMap) b
      = cacheInitialBoneRotations rig emptyRigMap b := by
  unfold cacheInitialBoneRotations
  cases rig b <;> rfl

theorem effectiveMap_cache (rig : Rig) (b : BoneName) :
    effectiveMap rig (cacheInitialBoneRotations rig emptyRigMap) b
      = cacheInitialBoneRotations rig emptyRigMap b := by
  unfold effectiveMap
  by_cases h : mapIsEmpty (cacheInitialBoneRotations rig emptyRigMap)
  · simp only [h, if_true]
    exact cacheInitialBoneRotations_idem rig b
  · simp only [h, Bool.false_eq_true, if_false]

/-- Applying a frame never makes a resolvable bone unresolvable or vice
versa: the solver chain only rewrites quaternions of existing nodes. -/
theorem applyPoseSolvedSegments_isSome (rig : Rig) (m : RigMap)
    (lS rS lH rH : Keypoint) (nose le re lk rk : Option Keypoint)
    (b : BoneName) :
    ((applyPoseSolvedSegments rig m lS rS lH rH nose le re lk rk) b).isSome
      = ((rig b)).isSome := by
  unfold applyPoseSolvedSegments
  rcases nose with _ | n <;> rcases le with _ | e1 <;> rcases re with _ | e2 <;>
    rcases lk with _ | k1 <;> rcases rk with _ | k2 <;>
    simp only [setLocalEulerDelta_isSome]

theorem applyPose_fst_isSome (rig : Rig) (keypoints : List Keypoint)
    (m0 : RigMap) (b : BoneName) :
    (((applyPoseToVRMFromKeypoints rig keypoints m0).1) b).isSome
      = ((rig b)).isSome := by
  unfold applyPoseToVRMFromKeypoints
  by_cases hem : mapIsEmpty (effectiveMap rig m0)
  · simp [hem]
  · simp only [hem, Bool.false_eq_true, if_false]
    rcases getKeypoint keypoints "left_shoulder" MIN_KEYPOINT_SCORE with _ | lS <;>
      rcases getKeypoint keypoints "right_shoulder" MIN_KEYPOINT_SCORE with _ | rS <;>
      rcases getKeypoint keypoints "left_hip" MIN_KEYPOINT_SCORE with _ | lH <;>
      rcases getKeypoint keypoints "right_hip" MIN_KEYPOINT_SCORE with _ | rH <;>
      first
      | exact resetBonesToInitial_isSome rig _ b
      | exact applyPoseSolvedSegments_isSome rig _ lS rS lH rH _ _ _ _ _ b

/-- C3.  Rest round-trip: capture the rest pose into a fresh cache, apply
one retarget frame (in particular any frame producing non-zero deltas on
the managed bones), then reset; every managed bone is back at exactly the
originally captured rotation, with no interpolation. -/
theorem rest_roundtrip_exact (rig : Rig) (keypoints : List Keypoint) :
    ∀ b, resetBonesToInitial
        ((applyPoseToVRMFromKeypoints rig keypoints
            (cacheInitialBoneRotations rig emptyRigMap)).1)
        ((applyPoseToVRMFromKeypoints rig keypoints
            (cacheInitialBoneRotations rig emptyRigMap)).2) b = rig b := by
  intro b
  have hsnd :=
    applyPose_snd rig keypoints (cacheInitialBoneRotations rig emptyRigMap)
  have hfst :=
    applyPose_fst_isSome rig keypoints (cacheInitialBoneRotations rig emptyRigMap) b
  rcases hr : rig b with _ | q
  · rw [hr] at hfst
    have h1 : ((applyPoseToVRMFromKeypoints rig keypoints
        (cacheInitialBoneRotations rig emptyRigMap)).1) b = none := by
      rcases hv : ((applyPoseToVRMFromKeypoints rig keypoints
          (cacheInitialBoneRotations rig emptyRigMap)).1) b with _ | v
      · rfl
      · rw [hv] at hfst; simp at hfst
    rw [resetBonesToInitial_of_rig_none _ _ b h1, h1]
  · have hM : cacheInitialBoneRotations rig emptyRigMap b = some q := by
      unfold cacheInitialBoneRotations
      rw [hr]
    have h2 : ((applyPoseToVRMFromKeypoints rig keypoints
        (cacheInitialBoneRotations rig emptyRigMap)).2) b = some q := by
      rw [hsnd]
      rw [effectiveMap_cache rig b]
      exact hM
    have h1 : (((applyPoseToVRMFromKeypoints rig keypoints
        (cacheInitialBoneRotations rig emptyRigMap)).1) b).isSome := by
      rw [hfst, hr]
      rfl
    rw [resetBonesToInitial_some _ _ b q h1 h2]

/-- C9.  The vector-between-points primitive is zero-vector-safe: it
returns the zero vector (no division by zero) when the two keypoints
coincide, and a unit-length vector when they differ. -/
theorem vec2FromKeypoints_safe_unit (a b : Keypoint) :
    ((b.x = a.x ∧ b.y = a.y) → vec2FromKeypoints a b = ⟨0, 0⟩) ∧
    (¬(b.x = a.x ∧ b.y = a.y) →
      (vec2FromKeypoints a b).x * (vec2FromKeypoints a b).x +
        (vec2FromKeypoints a b).y * (vec2FromKeypoints a b).y = 1) := by
  constructor
  · intro hcoin
    unfold vec2FromKeypoints
    rw [if_pos (by rw [hcoin.1, hcoin.2]; ring)]
  · intro hne
    have hS : (b.x - a.x) * (b.x - a.x) + (b.y - a.y) * (b.y - a.y) ≠ 0 := by
      intro h0
      have hx2 : (b.x - a.x) * (b.x - a.x) = 0 := by
        nlinarith [mul_self_nonneg (b.x - a.x), mul_self_nonneg (b.y - a.y)]
      have hy2 : (b.y - a.y) * (b.y - a.y) = 0 := by
        nlinarith [mul_self_nonneg (b.x - a.x), mul_self_nonneg (b.y - a.y)]
      have hx := mul_self_eq_zero.mp hx2
      have hy := mul_self_eq_zero.mp hy2
      exact hne ⟨by linarith, by linarith⟩
    unfold vec2FromKeypoints
    rw [if_neg hS]
    dsimp only
    push_cast
    have hq : (0:ℚ) < (b.x - a.x) * (b.x - a.x) + (b.y - a.y) * (b.y - a.y) :=
      lt_of_le_of_ne
        (by nlinarith [mul_self_nonneg (b.x - a.x), mul_self_nonneg (b.y - a.y)])
        (Ne.symm hS)
    have hSR : (0:ℝ) < ((b.x : ℝ) - (a.x : ℝ)) * ((b.x : ℝ) - (a.x : ℝ)) +
        ((b.y : ℝ) - (a.y : ℝ)) * ((b.y : ℝ) - (a.y : ℝ)) := by
      have h0 := (Rat.cast_pos (K := ℝ)).mpr hq
      push_cast at h0
      nlinarith [h0]
    have hlen : Real.sqrt (((b.x : ℝ) - (a.x : ℝ)) * ((b.x : ℝ) - (a.x : ℝ)) +
        ((b.y : ℝ) - (a.y : ℝ)) * ((b.y : ℝ) - (a.y : ℝ))) ≠ 0 :=
      ne_of_gt (Real.sqrt_pos.mpr hSR)
    field_simp

/-- C6.  For nonzero input vectors the signed-planar-angle utility computes
exactly `atan2(cross(a,b), dot(a,b))`, and the result lies in `(-π, π]`. -/
theorem signedAngle_atan2_range (a b : Vec2)
    (ha : ¬(a.x = 0 ∧ a.y = 0)) (hb : ¬(b.x = 0 ∧ b.y = 0)) :
    signedAngleBetweenVecs2D a b
        = atan2 (a.x * b.y - a.y * b.x) (a.x * b.x + a.y * b.y) ∧
      -Real.pi < signedAngleBetweenVecs2D a b ∧
      signedAngleBetweenVecs2D a b ≤ Real.pi := by
  have hsum : ∀ u v : ℝ, ¬(u = 0 ∧ v = 0) → 0 < u * u + v * v := by
    intro u v huv
    rcases lt_or_eq_of_le (by nlinarith [mul_self_nonneg u, mul_self_nonneg v] :
        (0:ℝ) ≤ u * u + v * v) with h | h
    · exact h
    · exfalso
      have hu : u * u = 0 := by nlinarith [mul_self_nonneg u, mul_self_nonneg v]
      have hv : v * v = 0 := by nlinarith [mul_self_nonneg u, mul_self_nonneg v]
      exact huv ⟨mul_self_eq_zero.mp hu, mul_self_eq_zero.mp hv⟩
  have hA : 0 < a.x * a.x + a.y * a.y := hsum a.x a.y ha
  have hB : 0 < b.x * b.x + b.y * b.y := hsum b.x b.y hb
  have hla : 0 < Real.sqrt (a.x * a.x + a.y * a.y) := Real.sqrt_pos.mpr hA
  have hlb : 0 < Real.sqrt (b.x * b.x + b.y * b.y) := Real.sqrt_pos.mpr hB
  set la := Real.sqrt (a.x * a.x + a.y * a.y) with hladef
  set lb := Real.sqrt (b.x * b.x + b.y * b.y) with hlbdef
  have hla2 : la * la = a.x * a.x + a.y * a.y := Real.mul_self_sqrt (le_of_lt hA)
  have hlb2 : lb * lb = b.x * b.x + b.y * b.y := Real.mul_self_sqrt (le_of_lt hB)
  have hlab : 0 < la * lb := mul_pos hla hlb
  have hcs : (a.x * b.x + a.y * b.y) ^ 2 ≤ (la * lb) ^ 2 := by
    have hexp : (la * lb) ^ 2 = (a.x * a.x + a.y * a.y) * (b.x * b.x + b.y * b.y) := by
      rw [mul_pow]
      rw [pow_two, pow_two, hla2, hlb2]
    rw [hexp]
    nlinarith [sq_nonneg (a.x * b.y - a.y * b.x)]
  obtain ⟨hcs1, hcs2⟩ := abs_le_of_sq_le_sq' hcs (le_of_lt hlab)
  have hdot : a.x / la * (b.x / lb) + a.y / la * (b.y / lb)
      = (la * lb)⁻¹ * (a.x * b.x + a.y * b.y) := by
    field_simp
  have hcross : a.x / la * (b.y / lb) - a.y / la * (b.x / lb)
      = (la * lb)⁻¹ * (a.x * b.y - a.y * b.x) := by
    field_simp
  have hinv : 0 < (la * lb)⁻¹ := inv_pos.mpr hlab
  have hdlo : (-1:ℝ) ≤ a.x / la * (b.x / lb) + a.y / la * (b.y / lb) := by
    rw [hdot]
    have h1 := mul_le_mul_of_nonneg_left hcs1 (le_of_lt hinv)
    rw [mul_neg, inv_mul_cancel₀ (ne_of_gt hlab)] at h1
    exact h1
  have hdhi : a.x / la * (b.x / lb) + a.y / la * (b.y / lb) ≤ 1 := by
    rw [hdot]
    have h2 := mul_le_mul_of_nonneg_left hcs2 (le_of_lt hinv)
    rw [inv_mul_cancel₀ (ne_of_gt hlab)] at h2
    exact h2
  have heq : signedAngleBetweenVecs2D a b
      = atan2 (a.x * b.y - a.y * b.x) (a.x * b.x + a.y * b.y) := by
    unfold signedAngleBetweenVecs2D
    rw [if_neg (by push_neg; exact ⟨ne_of_gt hA, ne_of_gt hB⟩)]
    dsimp only
    rw [← hladef, ← hlbdef]
    rw [clamp_of_mem _ _ _ hdlo hdhi]
    rw [hdot, hcross]
    exact atan2_scale _ _ _ hinv
  obtain ⟨h1, h2⟩ := atan2_mem_Ioc (a.x * b.y - a.y * b.x) (a.x * b.x + a.y * b.y)
  exact ⟨heq, by rw [heq]; exact h1, by rw [heq]; exact h2⟩

/-- The value `setLocalEulerDelta` stores at its own bone: when the node
resolves and a rest rotation is cached, the cached rotation composed with
the delta quaternion; otherwise the bone is left at its previous value. -/
noncomputable def solvedBone (rig : Rig) (m : RigMap) (bone : BoneName)
    (e : Euler) : Option Quat :=
  match rig bone, m bone with
  | some _, some initial =>
      some (quatMultiply initial (quaternionSetFromEuler e))
  | _, _ => rig bone

theorem setLocalEulerDelta_self_eq (rig : Rig) (m : RigMap)
    (bone : BoneName) (e : Euler) :
    setLocalEulerDelta rig m bone e bone = solvedBone rig m bone e := by
  unfold setLocalEulerDelta solvedBone
  rcases h1 : rig bone with _ | q0 <;> rcases h2 : m bone with _ | qi <;>
    simp [h1, h2]

theorem applyPoseSolvedSegments_hips (rig : Rig) (m : RigMap)
    (lS rS lH rH : Keypoint) (nose le re lk rk : Option Keypoint) :
    applyPoseSolvedSegments rig m lS rS lH rH nose le re lk rk BoneName.hips
      = solvedBone rig m BoneName.hips
          ⟨torsoPitch lS rS lH rH * 0.3, 0, 0⟩ := by
  unfold applyPoseSolvedSegments
  rcases nose with _ | n <;> rcases le with _ | e1 <;> rcases re with _ | e2 <;>
    rcases lk with _ | k1 <;> rcases rk with _ | k2 <;>
    simp [setLocalEulerDelta_ne, setLocalEulerDelta_self_eq]

theorem applyPoseSolvedSegments_spine (rig : Rig) (m : RigMap)
    (lS rS lH rH : Keypoint) (nose le re lk rk : Option Keypoint) :
    applyPoseSolvedSegments rig m lS rS lH rH nose le re lk rk BoneName.spine
      = solvedBone rig m BoneName.spine
          ⟨torsoPitch lS rS lH rH * 0.4, 0, 0⟩ := by
  unfold applyPoseSolvedSegments
  rcases nose with _ | n <;> rcases le with _ | e1 <;> rcases re with _ | e2 <;>
    rcases lk with _ | k1 <;> rcases rk with _ | k2 <;>
    simp [setLocalEulerDelta_ne, setLocalEulerDelta_self_eq] <;>
    (unfold solvedBone; simp [setLocalEulerDelta_ne])

theorem applyPoseSolvedSegments_chest (rig : Rig) (m : RigMap)
    (lS rS lH rH : Keypoint) (nose le re lk rk : Option Keypoint) :
    applyPoseSolvedSegments rig m lS rS lH rH nose le re lk rk BoneName.chest
      = solvedBone rig m BoneName.chest
          ⟨torsoPitch lS rS lH rH * 0.3, 0, 0⟩ := by
  unfold applyPoseSolvedSegments
  rcases nose with _ | n <;> rcases le with _ | e1 <;> rcases re with _ | e2 <;>
    rcases lk with _ | k1 <;> rcases rk with _ | k2 <;>
    simp [setLocalEulerDelta_ne, setLocalEulerDelta_self_eq] <;>
    (unfold solvedBone; simp [setLocalEulerDelta_ne])

theorem applyPoseSolvedSegments_neck_none (rig : Rig) (m : RigMap)
    (lS rS lH rH : Keypoint) (le re lk rk : Option Keypoint) :
    applyPoseSolvedSegments rig m lS rS lH rH none le re lk rk BoneName.neck
      = rig BoneName.neck := by
  unfold applyPoseSolvedSegments
  rcases le with _ | e1 <;> rcases re with _ | e2 <;>
    rcases lk with _ | k1 <;> rcases rk with _ | k2 <;>
    simp [setLocalEulerDelta_ne]

theorem applyPoseSolvedSegments_neck_some (rig : Rig) (m : RigMap)
    (lS rS lH rH n : Keypoint) (le re lk rk : Option Keypoint) :
    applyPoseSolvedSegments rig m lS rS lH rH (some n) le re lk rk
      BoneName.neck
      = solvedBone rig m BoneName.neck
          ⟨headPitch lS rS n * 0.3, headYaw lS rS * 0.3, 0⟩ := by
  unfold applyPoseSolvedSegments
  rcases le with _ | e1 <;> rcases re with _ | e2 <;>
    rcases lk with _ | k1 <;> rcases rk with _ | k2 <;>
    simp [setLocalEulerDelta_ne, setLocalEulerDelta_self_eq] <;>
    (unfold solvedBone; simp [setLocalEulerDelta_ne])

theorem applyPoseSolvedSegments_head_none (rig : Rig) (m : RigMap)
    (lS rS lH rH : Keypoint) (le re lk rk : Option Keypoint) :
    applyPoseSolvedSegments rig m lS rS lH rH none le re lk rk BoneName.head
      = rig BoneName.head := by
  unfold applyPoseSolvedSegments
  rcases le with _ | e1 <;> rcases re with _ | e2 <;>
    rcases lk with _ | k1 <;> rcases rk with _ | k2 <;>
    simp [setLocalEulerDelta_ne]

theorem applyPoseSolvedSegments_head_some (rig : Rig) (m : RigMap)
    (lS rS lH rH n : Keypoint) (le re lk rk : Option Keypoint) :
    applyPoseSolvedSegments rig m lS rS lH rH (some n) le re lk rk
      BoneName.head
      = solvedBone rig m BoneName.head
          ⟨headPitch lS rS n * 0.7, headYaw lS rS * 0.7, 0⟩ := by
  unfold applyPoseSolvedSegments
  rcases le with _ | e1 <;> rcases re with _ | e2 <;>
    rcases lk with _ | k1 <;> rcases rk with _ | k2 <;>
    simp [setLocalEulerDelta_ne, setLocalEulerDelta_self_eq] <;>
    (unfold solvedBone; simp [setLocalEulerDelta_ne])

theorem applyPoseSolvedSegments_leftUpperArm_none (rig : Rig) (m : RigMap)
    (lS rS lH rH : Keypoint) (nose re lk rk : Option Keypoint) :
    applyPoseSolvedSegments rig m lS rS lH rH nose none re lk rk
      BoneName.leftUpperArm = rig BoneName.leftUpperArm := by
  unfold applyPoseSolvedSegments
  rcases nose with _ | n <;> rcases re with _ | e2 <;>
    rcases lk with _ | k1 <;> rcases rk with _ | k2 <;>
    simp [setLocalEulerDelta_ne]

theorem applyPoseSolvedSegments_leftUpperArm_some (rig : Rig) (m : RigMap)
    (lS rS lH rH e0 : Keypoint) (nose re lk rk : Option Keypoint) :
    applyPoseSolvedSegments rig m lS rS lH rH nose (some e0) re lk rk
      BoneName.leftUpperArm
      = solvedBone rig m BoneName.leftUpperArm
          ⟨0, 0, leftAbduction lS e0⟩ := by
  unfold applyPoseSolvedSegments
  rcases nose with _ | n <;> rcases re with _ | e2 <;>
    rcases lk with _ | k1 <;> rcases rk with _ | k2 <;>
    simp [setLocalEulerDelta_ne, setLocalEulerDelta_self_eq] <;>
    (unfold solvedBone; simp [setLocalEulerDelta_ne])

theorem applyPoseSolvedSegments_rightUpperArm_none (rig : Rig) (m : RigMap)
    (lS rS lH rH : Keypoint) (nose le lk rk : Option Keypoint) :
    applyPoseSolvedSegments rig m lS rS lH rH nose le none lk rk
      BoneName.rightUpperArm = rig BoneName.rightUpperArm := by
  unfold applyPoseSolvedSegments
  rcases nose with _ | n <;> rcases le with _ | e1 <;>
    rcases lk with _ | k1 <;> rcases rk with _ | k2 <;>
    simp [setLocalEulerDelta_ne]

theorem applyPoseSolvedSegments_rightUpperArm_some (rig : Rig) (m : RigMap)
    (lS rS lH rH e0 : Keypoint) (nose le lk rk : Option Keypoint) :
    applyPoseSolvedSegments rig m lS rS lH rH nose le (some e0) lk rk
      BoneName.rightUpperArm
      = solvedBone rig m BoneName.rightUpperArm
          ⟨0, 0, rightAbduction rS e0⟩ := by
  unfold applyPoseSolvedSegments
  rcases nose with _ | n <;> rcases le with _ | e1 <;>
    rcases lk with _ | k1 <;> rcases rk with _ | k2 <;>
    simp [setLocalEulerDelta_ne, setLocalEulerDelta_self_eq] <;>
    (unfold solvedBone; simp [setLocalEulerDelta_ne])

theorem applyPoseSolvedSegments_leftUpperLeg_none (rig : Rig) (m : RigMap)
    (lS rS lH rH : Keypoint) (nose le re rk : Option Keypoint) :
    applyPoseSolvedSegments rig m lS rS lH rH nose le re none rk
      BoneName.leftUpperLeg = rig BoneName.leftUpperLeg := by
  unfold applyPoseSolvedSegments
  rcases nose with _ | n <;> rcases le with _ | e1 <;>
    rcases re with _ | e2 <;> rcases rk with _ | k2 <;>
    simp [setLocalEulerDelta_ne]

theorem applyPoseSolvedSegments_leftUpperLeg_some (rig : Rig) (m : RigMap)
    (lS rS lH rH k0 : Keypoint) (nose le re rk : Option Keypoint) :
    applyPoseSolvedSegments rig m lS rS lH rH nose le re (some k0) rk
      BoneName.leftUpperLeg
      = solvedBone rig m BoneName.leftUpperLeg
          ⟨legFlex lH k0, 0, 0⟩ := by
  unfold applyPoseSolvedSegments
  rcases nose with _ | n <;> rcases le with _ | e1 <;>
    rcases re with _ | e2 <;> rcases rk with _ | k2 <;>
    simp [setLocalEulerDelta_ne, setLocalEulerDelta_self_eq] <;>
    (unfold solvedBone; simp [setLocalEulerDelta_ne])

theorem applyPoseSolvedSegments_rightUpperLeg_none (rig : Rig) (m : RigMap)
    (lS rS lH rH : Keypoint) (nose le re lk : Option Keypoint) :
    applyPoseSolvedSegments rig m lS rS lH rH nose le re lk none
      BoneName.rightUpperLeg = rig BoneName.rightUpperLeg := by
  unfold applyPoseSolvedSegments
  rcases nose with _ | n <;> rcases le with _ | e1 <;>
    rcases re with _ | e2 <;> rcases lk with _ | k1 <;>
    simp [setLocalEulerDelta_ne]

theorem applyPoseSolvedSegments_rightUpperLeg_some (rig : Rig) (m : RigMap)
    (lS rS lH rH k0 : Keypoint) (nose le re lk : Option Keypoint) :
    applyPoseSolvedSegments rig m lS rS lH rH nose le re lk (some k0)
      BoneName.rightUpperLeg
      = solvedBone rig m BoneName.rightUpperLeg
          ⟨legFlex rH k0, 0, 0⟩ := by
  unfold applyPoseSolvedSegments
  rcases nose with _ | n <;> rcases le with _ | e1 <;>
    rcases re with _ | e2 <;> rcases lk with _ | k1 <;>
    simp [setLocalEulerDelta_ne, setLocalEulerDelta_self_eq] <;>
    (unfold solvedBone; simp [setLocalEulerDelta_ne])

/-- The bones no solver of the first variant ever writes: they keep their
previous rotation in every frame. -/
theorem applyPoseSolvedSegments_untouched (rig : Rig) (m : RigMap)
    (lS rS lH rH : Keypoint) (nose le re lk rk : Option Keypoint)
    (b : BoneName)
    (hb : b = BoneName.upperChest ∨ b = BoneName.leftLowerArm ∨
      b = BoneName.rightLowerArm ∨ b = BoneName.leftLowerLeg ∨
      b = BoneName.rightLowerLeg) :
    applyPoseSolvedSegments rig m lS rS lH rH nose le re lk rk b
      = rig b := by
  unfold applyPoseSolvedSegments
  rcases hb with rfl | rfl | rfl | rfl | rfl <;>
    rcases nose with _ | n <;> rcases le with _ | e1 <;>
    rcases re with _ | e2 <;> rcases lk with _ | k1 <;>
    rcases rk with _ | k2 <;>
    simp [setLocalEulerDelta_ne]

/-- C7.  Frame effect / segment isolation, for every frame that passes the
torso gate: whichever optional segment is missing its required keypoint
(post-gating), that solver writes no target and the segment keeps its
previous rotations; every segment whose keypoints are complete is still
solved and applied to its bones in the same frame (the torso always, the
head/arm/leg segments exactly when their keypoint survives gating); and
the bones no solver writes are untouched in every frame. -/
theorem segment_isolation_frame_effect (rig : Rig) (m0 : RigMap)
    (keypoints : List Keypoint) (lS rS lH rH : Keypoint)
    (hm : mapIsEmpty m0 = false)
    (hls : getKeypoint keypoints "left_shoulder" MIN_KEYPOINT_SCORE = some lS)
    (hrs : getKeypoint keypoints "right_shoulder" MIN_KEYPOINT_SCORE = some rS)
    (hlh : getKeypoint keypoints "left_hip" MIN_KEYPOINT_SCORE = some lH)
    (hrh : getKeypoint keypoints "right_hip" MIN_KEYPOINT_SCORE = some rH) :
    (applyPoseToVRMFromKeypoints rig keypoints m0).1 BoneName.hips
        = solvedBone rig m0 BoneName.hips
            ⟨torsoPitch lS rS lH rH * 0.3, 0, 0⟩ ∧
    (applyPoseToVRMFromKeypoints rig keypoints m0).1 BoneName.spine
        = solvedBone rig m0 BoneName.spine
            ⟨torsoPitch lS rS lH rH * 0.4, 0, 0⟩ ∧
    (applyPoseToVRMFromKeypoints rig keypoints m0).1 BoneName.chest
        = solvedBone rig m0 BoneName.chest
            ⟨torsoPitch lS rS lH rH * 0.3, 0, 0⟩ ∧
    (getKeypoint keypoints "nose" MIN_KEYPOINT_SCORE = none →
      (applyPoseToVRMFromKeypoints rig keypoints m0).1 BoneName.neck
          = rig BoneName.neck ∧
      (applyPoseToVRMFromKeypoints rig keypoints m0).1 BoneName.head
          = rig BoneName.head) ∧
    (∀ n, getKeypoint keypoints "nose" MIN_KEYPOINT_SCORE = some n →
      (applyPoseToVRMFromKeypoints rig keypoints m0).1 BoneName.neck
          = solvedBone rig m0 BoneName.neck
              ⟨headPitch lS rS n * 0.3, headYaw lS rS * 0.3, 0⟩ ∧
      (applyPoseToVRMFromKeypoints rig keypoints m0).1 BoneName.head
          = solvedBone rig m0 BoneName.head
              ⟨headPitch lS rS n * 0.7, headYaw lS rS * 0.7, 0⟩) ∧
    (getKeypoint keypoints "left_elbow" MIN_KEYPOINT_SCORE = none →
      (applyPoseToVRMFromKeypoints rig keypoints m0).1 BoneName.leftUpperArm
          = rig BoneName.leftUpperArm) ∧
    (∀ e, getKeypoint keypoints "left_elbow" MIN_KEYPOINT_SCORE = some e →
      (applyPoseToVRMFromKeypoints rig keypoints m0).1 BoneName.leftUpperArm
          = solvedBone rig m0 BoneName.leftUpperArm
              ⟨0, 0, leftAbduction lS e⟩) ∧
    (getKeypoint keypoints "right_elbow" MIN_KEYPOINT_SCORE = none →
      (applyPoseToVRMFromKeypoints rig keypoints m0).1 BoneName.rightUpperArm
          = rig BoneName.rightUpperArm) ∧
    (∀ e, getKeypoint keypoints "right_elbow" MIN_KEYPOINT_SCORE = some e →
      (applyPoseToVRMFromKeypoints rig keypoints m0).1 BoneName.rightUpperArm
          = solvedBone rig m0 BoneName.rightUpperArm
              ⟨0, 0, rightAbduction rS e⟩) ∧
    (getKeypoint keypoints "left_knee" MIN_KEYPOINT_SCORE = none →
      (applyPoseToVRMFromKeypoints rig keypoints m0).1 BoneName.leftUpperLeg
          = rig BoneName.leftUpperLeg) ∧
    (∀ k, getKeypoint keypoints "left_knee" MIN_KEYPOINT_SCORE = some k →
      (applyPoseToVRMFromKeypoints rig keypoints m0).1 BoneName.leftUpperLeg
          = solvedBone rig m0 BoneName.leftUpperLeg
              ⟨legFlex lH k, 0, 0⟩) ∧
    (getKeypoint keypoints "right_knee" MIN_KEYPOINT_SCORE = none →
      (applyPoseToVRMFromKeypoints rig keypoints m0).1 BoneName.rightUpperLeg
          = rig BoneName.rightUpperLeg) ∧
    (∀ k, getKeypoint keypoints "right_knee" MIN_KEYPOINT_SCORE = some k →
      (applyPoseToVRMFromKeypoints rig keypoints m0).1 BoneName.rightUpperLeg
          = solvedBone rig m0 BoneName.rightUpperLeg
              ⟨legFlex rH k, 0, 0⟩) ∧
    (∀ b, (b = BoneName.upperChest ∨ b = BoneName.leftLowerArm ∨
        b = BoneName.rightLowerArm ∨ b = BoneName.leftLowerLeg ∨
        b = BoneName.rightLowerLeg) →
      (applyPoseToVRMFromKeypoints rig keypoints m0).1 b = rig b) := by
  have hM : effectiveMap rig m0 = m0 := by
    unfold effectiveMap
    simp [hm]
  have happ1 : (applyPoseToVRMFromKeypoints rig keypoints m0).1
      = applyPoseSolvedSegments rig m0 lS rS lH rH
          (getKeypoint keypoints "nose" MIN_KEYPOINT_SCORE)
          (getKeypoint keypoints "left_elbow" MIN_KEYPOINT_SCORE)
          (getKeypoint keypoints "right_elbow" MIN_KEYPOINT_SCORE)
          (getKeypoint keypoints "left_knee" MIN_KEYPOINT_SCORE)
          (getKeypoint keypoints "right_knee" MIN_KEYPOINT_SCORE) := by
    unfold applyPoseToVRMFromKeypoints
    simp only [hM, hm, Bool.false_eq_true, if_false]
    rw [hls, hrs, hlh, hrh]
  refine ⟨?_, ?_, ?_, ?_, ?_, ?_, ?_, ?_, ?_, ?_, ?_, ?_, ?_, ?_⟩
  · rw [happ1]
    exact applyPoseSolvedSegments_hips rig m0 lS rS lH rH _ _ _ _ _
  · rw [happ1]
    exact applyPoseSolvedSegments_spine rig m0 lS rS lH rH _ _ _ _ _
  · rw [happ1]
    exact applyPoseSolvedSegments_chest rig m0 lS rS lH rH _ _ _ _ _
  · intro hn
    rw [happ1, hn]
    exact ⟨applyPoseSolvedSegments_neck_none rig m0 lS rS lH rH _ _ _ _,
      applyPoseSolvedSegments_head_none rig m0 lS rS lH rH _ _ _ _⟩
  · intro n hn
    rw [happ1, hn]
    exact ⟨applyPoseSolvedSegments_neck_some rig m0 lS rS lH rH n _ _ _ _,
      applyPoseSolvedSegments_head_some rig m0 lS rS lH rH n _ _ _ _⟩
  · intro hn
    rw [happ1, hn]
    exact applyPoseSolvedSegments_leftUpperArm_none rig m0 lS rS lH rH _ _ _ _
  · intro e hn
    rw [happ1, hn]
    exact applyPoseSolvedSegments_leftUpperArm_some rig m0 lS rS lH rH e _ _ _ _
  · intro hn
    rw [happ1, hn]
    exact applyPoseSolvedSegments_rightUpperArm_none rig m0 lS rS lH rH _ _ _ _
  · intro e hn
    rw [happ1, hn]
    exact applyPoseSolvedSegments_rightUpperArm_some rig m0 lS rS lH rH e _ _ _ _
  · intro hn
    rw [happ1, hn]
    exact applyPoseSolvedSegments_leftUpperLeg_none rig m0 lS rS lH rH _ _ _ _
  · intro k hn
    rw [happ1, hn]
    exact applyPoseSolvedSegments_leftUpperLeg_some rig m0 lS rS lH rH k _ _ _ _
  · intro hn
    rw [happ1, hn]
    exact applyPoseSolvedSegments_rightUpperLeg_none rig m0 lS rS lH rH _ _ _ _
  · intro k hn
    rw [happ1, hn]
    exact applyPoseSolvedSegments_rightUpperLeg_some rig m0 lS rS lH rH k _ _ _ _
  · intro b hb
    rw [happ1]
    exact applyPoseSolvedSegments_untouched rig m0 lS rS lH rH _ _ _ _ _ b hb

theorem getKeypoint_mem (keypoints : List Keypoint) (nm : String) (s : ℚ)
    (kp : Keypoint) (h : getKeypoint keypoints nm s = some kp) :
    kp ∈ keypoints ∧ kp.name = nm ∧ s ≤ kp.score.getD 0 := by
  unfold getKeypoint at h
  rcases hf : keypoints.find? (fun k => k.name = nm) with _ | kp0
  · rw [hf] at h; simp at h
  · rw [hf] at h
    dsimp only at h
    by_cases hsc : kp0.score.getD 0 < s
    · rw [if_pos hsc] at h; simp at h
    · rw [if_neg hsc] at h
      have hkp : kp0 = kp := by simpa using h
      subst hkp
      refine ⟨List.mem_of_find?_eq_some hf, ?_, le_of_not_lt hsc⟩
      have := List.find?_some hf
      simpa using this

theorem getKeypoint_keeps (keypoints : List Keypoint) (nm : String) (s : ℚ)
    (kp : Keypoint) (hmem : kp ∈ keypoints) (hname : kp.name = nm)
    (hsc : s ≤ kp.score.getD 0)
    (hnd : (keypoints.map Keypoint.name).Nodup) :
    getKeypoint keypoints nm s = some kp := by
  induction keypoints with
  | nil => simp at hmem
  | cons hd t ih =>
    rcases List.mem_cons.mp hmem with rfl | hmt
    · unfold getKeypoint
      rw [List.find?_cons_of_pos _ (by simpa using hname)]
      dsimp only
      rw [if_neg (not_lt.mpr hsc)]
    · have hnd' := hnd
      rw [List.map_cons] at hnd'
      have hnd2 := List.nodup_cons.mp hnd'
      by_cases hh : hd.name = nm
      · exfalso
        exact hnd2.1 (by
          rw [hh, ← hname]
          exact List.mem_map_of_mem Keypoint.name hmt)
      · have ht : getKeypoint t nm s = some kp := ih hmt hnd2.2
        unfold getKeypoint at ht ⊢
        rw [List.find?_cons_of_neg _ (by simpa using hh)]
        exact ht

/-- The score filter of the second variant:
`typeof kp.score === "number" && kp.score >= 0.3`. -/
def scoreOk004 (kp : Keypoint) : Bool :=
  match kp.score with
  | some s => decide ((0.3:ℚ) ≤ s)
  | none => false

/-- One step of the `keypoints.forEach` loop that builds `byName` in the
second variant: skip falsy names, store the keypoint under its name iff the
score is a number at or above `0.3`. -/
def byName004Step (acc : String → Option Keypoint) (kp : Keypoint) :
    String → Option Keypoint :=
  if kp.name = "" then acc
  else if scoreOk004 kp then
    fun n => if n = kp.name then some kp else acc n
  else acc

/-- The `byName` record the second variant feeds its solvers: processed in
list order, later entries overwriting earlier ones with the same name. -/
def byName004 (keypoints : List Keypoint) : String → Option Keypoint :=
  keypoints.foldl byName004Step (fun _ => none)

theorem byName004_aux_sound (keypoints : List Keypoint) :
    ∀ (acc : String → Option Keypoint) (nm : String) (kp : Keypoint),
      (∀ kp2, acc nm = some kp2 → kp2.name = nm ∧ scoreOk004 kp2 = true) →
      keypoints.foldl byName004Step acc nm = some kp →
      kp.name = nm ∧ scoreOk004 kp = true := by
  induction keypoints with
  | nil => intro acc nm kp hacc h; exact hacc kp h
  | cons hd t ih =>
    intro acc nm kp hacc h
    refine ih (byName004Step acc hd) nm kp ?_ h
    intro kp2 h2
    unfold byName004Step at h2
    by_cases h1 : hd.name = ""
    · rw [if_pos h1] at h2; exact hacc kp2 h2
    · rw [if_neg h1] at h2
      by_cases hok : scoreOk004 hd
      · rw [if_pos hok] at h2
        by_cases h3 : nm = hd.name
        · rw [if_pos h3] at h2
          have : hd = kp2 := by simpa using h2
          subst this
          exact ⟨h3.symm, hok⟩
        · rw [if_neg h3] at h2
          exact hacc kp2 h2
      · rw [if_neg hok] at h2
        exact hacc kp2 h2

theorem byName004_aux_keeps (keypoints : List Keypoint) :
    ∀ (acc : String → Option Keypoint) (nm : String) (kp : Keypoint),
      (acc nm = some kp ∨ kp ∈ keypoints) →
      kp.name = nm → nm ≠ "" → scoreOk004 kp = true →
      (∀ kp2 ∈ keypoints, kp2.name = nm → kp2 = kp) →
      keypoints.foldl byName004Step acc nm = some kp := by
  induction keypoints with
  | nil =>
    intro acc nm kp hst hname hne hok hub
    rcases hst with h | h
    · exact h
    · simp at h
  | cons hd t ih =>
    intro acc nm kp hst hname hne hok hub
    refine ih (byName004Step acc hd) nm kp ?_ hname hne hok
      (fun kp2 h2 hn => hub kp2 (List.mem_cons_of_mem _ h2) hn)
    by_cases hh : hd.name = nm
    · left
      have hhd : hd = kp := hub hd (List.mem_cons_self hd t) hh
      subst hhd
      unfold byName004Step
      rw [if_neg (by rw [hh]; exact hne), if_pos hok, if_pos hh.symm]
    · rcases hst with h | h
      · left
        unfold byName004Step
        by_cases h1 : hd.name = ""
        · rw [if_pos h1]; exact h
        · by_cases hok2 : scoreOk004 hd
          · rw [if_neg h1, if_pos hok2,
              if_neg (fun hcon => hh hcon.symm)]
            exact h
          · rw [if_neg h1, if_neg hok2]; exact h
      · rcases List.mem_cons.mp h with rfl | hmt
        · exact absurd hname hh
        · right; exact hmt

/-- C4.  Confidence gating: a keypoint below the threshold is never handed
to a solver, and an at-or-above-threshold keypoint with a known name is
kept.  Stated for both gating implementations: `getKeypoint` (first
variant, threshold argument `s`, `score ?? 0` defaulting, frames with
distinct landmark names) and the `byName` record (second variant, literal
threshold `0.3`, numeric-score requirement, single match). -/
theorem gating_threshold_spec (keypoints : List Keypoint) (nm : String)
    (s : ℚ) :
    (∀ kp, getKeypoint keypoints nm s = some kp →
      kp ∈ keypoints ∧ kp.name = nm ∧ s ≤ kp.score.getD 0) ∧
    (∀ kp, kp ∈ keypoints → kp.name = nm → s ≤ kp.score.getD 0 →
      (keypoints.map Keypoint.name).Nodup →
      getKeypoint keypoints nm s = some kp) ∧
    (∀ kp, byName004 keypoints nm = some kp →
      kp.name = nm ∧ scoreOk004 kp = true) ∧
    (∀ kp, kp ∈ keypoints → kp.name = nm → nm ≠ "" →
      scoreOk004 kp = true →
      (∀ kp2 ∈ keypoints, kp2.name = nm → kp2 = kp) →
      byName004 keypoints nm = some kp) := by
  refine ⟨?_, ?_, ?_, ?_⟩
  · intro kp h; exact getKeypoint_mem keypoints nm s kp h
  · intro kp hmem hname hsc hnd
    exact getKeypoint_keeps keypoints nm s kp hmem hname hsc hnd
  · intro kp h
    exact byName004_aux_sound keypoints (fun _ => none) nm kp
      (by intro kp2 h2; simp at h2) h
  · intro kp hmem hname hne hok hub
    exact byName004_aux_keeps keypoints (fun _ => none) nm kp
      (Or.inr hmem) hname hne hok hub

theorem atan2_neg_of_zero (y x : ℝ) (hy : y < 0) (hx : x = 0) :
    atan2 y x = -(Real.pi / 2) := by
  unfold atan2
  rw [hx]
  simp [lt_irrefl, asymm hy, hy]

/-- `angle2D(ax, ay, bx, by) = Math.atan2(by - ay, bx - ax)` of the second
variant. -/
noncomputable def angle2D (ax ay bx byv : ℝ) : ℝ :=
  atan2 (byv - ay) (bx - ax)

/-- The elbow-flexion value `applyArmChain` writes to `lower.rotation.x`:
`elbowBend = clamp(ewAngle - seAngle, -Math.PI / 2, Math.PI / 2)` computed
from the shoulder, elbow and wrist keypoints — a clamp symmetric about
zero. -/
noncomputable def elbowBend004 (sx sy ex ey wx wy : ℝ) : ℝ :=
  clamp (angle2D ex ey wx wy - angle2D sx sy ex ey)
    (-(Real.pi / 2)) (Real.pi / 2)

/-- C2.  The code clamps the elbow flexion to the symmetric range
`[-π/2, π/2]`, not to the forward-only range required by the claim: with
the shoulder at (0,0), the elbow straight below at (0,100) and the wrist at
(100,100), the applied elbow bend is `-π/2`, a negative (backward) flexion
that an asymmetric 0..~2.6 clamp would have cut to 0. -/
theorem elbowBend_symmetric_clamp_at_failing_input :
    elbowBend004 0 0 0 100 100 100 = -(Real.pi / 2) ∧
      -(Real.pi / 2) < 0 := by
  constructor
  · unfold elbowBend004 angle2D
    have h1 : atan2 ((100:ℝ) - 100) (100 - 0) = 0 :=
      atan2_zero_of_pos _ _ (by norm_num) (by norm_num)
    have h2 : atan2 ((100:ℝ) - 0) (0 - 0) = Real.pi / 2 :=
      atan2_pos_of_zero _ _ (by norm_num) (by norm_num)
    rw [h1, h2, zero_sub]
    unfold clamp
    rw [min_eq_right (by linarith [Real.pi_pos])]
    exact max_self _
  · linarith [Real.pi_pos]

/-- The torso pitch of the second variant:
`torsoPitch = clamp(-(atan2(torsoVec.y, torsoVec.x) - π/2), -0.6, 0.6)`
with `torsoVec` pointing from the hip midpoint to the shoulder midpoint. -/
noncomputable def torsoPitch004 (hipMidX hipMidY shoulderMidX shoulderMidY : ℝ) : ℝ :=
  clamp (-(atan2 (shoulderMidY - hipMidY) (shoulderMidX - hipMidX)
      - Real.pi / 2)) (-0.6) 0.6

/-- C5.  The synthetic upright frame (shoulders (100,100)/(200,100), hips
(120,200)/(180,200)) does not yield torso pitch ≈ 0: the first variant
computes exactly 0.5 rad and the second variant exactly 0.6 rad (the clamp
bound), because neither formula subtracts the upright baseline. -/
theorem torsoPitch_upright_not_zero :
    torsoPitch ⟨"left_shoulder", 100, 100, some 0.9⟩
        ⟨"right_shoulder", 200, 100, some 0.9⟩
        ⟨"left_hip", 120, 200, some 0.9⟩
        ⟨"right_hip", 180, 200, some 0.9⟩ = 0.5 ∧
      torsoPitch004 150 200 150 100 = 0.6 ∧ (0.5 : ℝ) ≠ 0 := by
  refine ⟨?_, ?_, by norm_num⟩
  · have hmidH : midKeypoint "mid_hip" ⟨"left_hip", 120, 200, some 0.9⟩
        ⟨"right_hip", 180, 200, some 0.9⟩
        = ⟨"mid_hip", 150, 200, some 0.9⟩ := by
      unfold midKeypoint
      norm_num
    have hmidS : midKeypoint "mid_shoulder" ⟨"left_shoulder", 100, 100, some 0.9⟩
        ⟨"right_shoulder", 200, 100, some 0.9⟩
        = ⟨"mid_shoulder", 150, 100, some 0.9⟩ := by
      unfold midKeypoint
      norm_num
    have hv : vec2FromKeypoints (⟨"mid_hip", 150, 200, some 0.9⟩ : Keypoint)
        (⟨"mid_shoulder", 150, 100, some 0.9⟩ : Keypoint) = ⟨0, -1⟩ := by
      unfold vec2FromKeypoints
      rw [if_neg (by norm_num)]
      dsimp only
      have h1 : (((150:ℚ) - 150 : ℚ) : ℝ) = 0 := by norm_num
      have h2 : (((100:ℚ) - 200 : ℚ) : ℝ) = -100 := by norm_num
      rw [h1, h2]
      have h3 : Real.sqrt ((0:ℝ) * 0 + (-100) * (-100)) = 100 := by
        rw [show (0:ℝ) * 0 + (-100) * (-100) = 100 ^ 2 by norm_num]
        exact Real.sqrt_sq (by norm_num)
      rw [h3]
      have hx : (0:ℝ) / 100 = 0 := by norm_num
      have hy : (-100:ℝ) / 100 = -1 := by norm_num
      rw [hx, hy]
    unfold torsoPitch
    rw [hmidH, hmidS, hv]
    have hyv : (-((⟨0, -1⟩ : Vec2)).y * 0.5 : ℝ) = 0.5 := by
      norm_num
    rw [hyv]
    exact clamp_of_mem _ _ _ (by norm_num) (by norm_num)
  · unfold torsoPitch004
    have h1 : atan2 ((100:ℝ) - 200) (150 - 150) = -(Real.pi / 2) :=
      atan2_neg_of_zero _ _ (by norm_num) (by norm_num)
    rw [h1]
    have h2 : -(-(Real.pi / 2) - Real.pi / 2) = Real.pi := by ring
    rw [h2]
    unfold clamp
    rw [min_eq_left (by linarith [Real.pi_gt_three])]
    exact max_eq_right (by norm_num)

/-- Modelled from the spec: the smoothing layer applies three.js
`Quaternion.slerp` from the bone's current rotation toward the target by
the factor `lerpAmount * dampener` (§4.5); the slerp implementation itself
is vendor-library code outside this repository.  Along the geodesic to a
constant target, one slerp tick by factor `a` multiplies the remaining
angular distance by `1 - a`; this definition is that angular-distance
action of one tick. -/
noncomputable def slerpAngleStep (a d : ℝ) : ℝ := (1 - a) * d

/-- The angular distance to a constant target after `t` smoothing ticks
with fixed effective interpolation factor `a`, starting from distance
`d0`. -/
noncomputable def slerpAngleSeq (a d0 : ℝ) : ℕ → ℝ
  | 0 => d0
  | t + 1 => slerpAngleStep a (slerpAngleSeq a d0 t)

/-- C8.  Smoothing convergence: with a constant target and a fixed
effective factor `a ∈ (0,1]`, the distance-to-target shrinks exactly
geometrically, `distance(t+1) = (1-a)·distance(t)`, and for every positive
epsilon there is a tick bound after which the distance stays below it. -/
theorem smoothing_geometric_convergence (a d0 : ℝ) (ha1 : 0 < a)
    (ha2 : a ≤ 1) (hd : 0 ≤ d0) :
    (∀ t, slerpAngleSeq a d0 (t + 1) = (1 - a) * slerpAngleSeq a d0 t) ∧
    (∀ ε : ℝ, 0 < ε → ∃ N : ℕ, ∀ t, N ≤ t → slerpAngleSeq a d0 t < ε) := by
  have hc : ∀ t, slerpAngleSeq a d0 t = (1 - a) ^ t * d0 := by
    intro t
    induction t with
    | zero => simp [slerpAngleSeq]
    | succ n ih =>
      rw [show slerpAngleSeq a d0 (n + 1)
          = slerpAngleStep a (slerpAngleSeq a d0 n) from rfl]
      rw [ih]
      unfold slerpAngleStep
      rw [pow_succ]
      ring
  constructor
  · intro t
    rfl
  · intro ε hε
    rcases eq_or_lt_of_le hd with hd0 | hd0
    · refine ⟨0, fun t ht => ?_⟩
      rw [hc t, ← hd0, mul_zero]
      exact hε
    · have hr0 : 0 ≤ 1 - a := by linarith
      have hr1 : 1 - a < 1 := by linarith
      obtain ⟨N, hN⟩ := exists_pow_lt_of_lt_one (div_pos hε hd0) hr1
      refine ⟨N, fun t ht => ?_⟩
      rw [hc t]
      have hmono : (1 - a) ^ t ≤ (1 - a) ^ N :=
        pow_le_pow_of_le_one hr0 (by linarith) ht
      have h1 : (1 - a) ^ t * d0 ≤ (1 - a) ^ N * d0 :=
        mul_le_mul_of_nonneg_right hmono (le_of_lt hd0)
      have h2 : (1 - a) ^ N * d0 < ε := (lt_div_iff₀ hd0).mp hN
      linarith

/-- One JavaScript value read off a solver result component: a finite
number, `NaN`, or anything that is not a number (including `undefined`). -/
inductive JSValue where
  | num (v : ℚ)
  | nan
  | notNumber
deriving DecidableEq, Repr

/-- The `rotation` argument of `rigRotation`, component-wise. -/
structure RotationEuler where
  x : JSValue
  y : JSValue
  z : JSValue
deriving DecidableEq, Repr

/-- A component passes the guard iff `typeof v === "number"` and
`!Number.isNaN(v)`. -/
def isValidComponent : JSValue → Bool
  | JSValue.num _ => true
  | JSValue.nan => false
  | JSValue.notNumber => false

/-- The numeric value of a component that passed the guard. -/
def jsNum : JSValue → ℚ
  | JSValue.num v => v
  | JSValue.nan => 0
  | JSValue.notNumber => 0

/-- The skip condition at the top of `rigRotation`: the rotation object is
`null`/`undefined`, or some component is not a number or is `NaN`. -/
def rotationInvalid (rotation : Option RotationEuler) : Bool :=
  match rotation with
  | none => true
  | some r => !(isValidComponent r.x && isValidComponent r.y &&
      isValidComponent r.z)

/-- Modelled from the spec: three.js `Quaternion.slerp` is vendor-library
code outside this repository; the spec (§4.5) specifies it as spherical
interpolation of the current rotation toward the target by the given
factor.  No theorem in this file depends on the interpolated value, so the
valid branch is modelled as a componentwise blend by the factor. -/
noncomputable def quatSlerpModel (q r : Quat) (t : ℝ) : Quat :=
  ⟨q.x + (r.x - q.x) * t, q.y + (r.y - q.y) * t,
   q.z + (r.z - q.z) * t, q.w + (r.w - q.w) * t⟩

/-- `rigRotation(bone, rotation, dampener = 1, lerpAmount = 0.3)`: skip
invalid rotations entirely, otherwise build the target quaternion from the
`XYZ` Euler and slerp the bone quaternion toward it by
`lerpAmount * dampener`. -/
noncomputable def rigRotation (bone : Quat) (rotation : Option RotationEuler)
    (dampener lerpAmount : ℝ) : Quat :=
  match rotation with
  | none => bone
  | some r =>
    if isValidComponent r.x && isValidComponent r.y &&
        isValidComponent r.z then
      quatSlerpModel bone
        (quaternionSetFromEuler
          ⟨((jsNum r.x : ℚ) : ℝ), ((jsNum r.y : ℚ) : ℝ),
           ((jsNum r.z : ℚ) : ℝ)⟩)
        (lerpAmount * dampener)
    else bone

/-- C10.  An invalid rotation argument (missing object, non-numeric or NaN
component) makes `rigRotation` return without mutating the bone quaternion
and without raising an error, so an invalid solver output can never write a
non-finite rotation into the rig. -/
theorem rigRotation_invalid_no_mutation (bone : Quat)
    (rotation : Option RotationEuler) (dampener lerpAmount : ℝ)
    (h : rotationInvalid rotation = true) :
    rigRotation bone rotation dampener lerpAmount = bone := by
  rcases rotation with _ | r
  · rfl
  · have hcond : (isValidComponent r.x && isValidComponent r.y &&
        isValidComponent r.z) = false := by
      unfold rotationInvalid at h
      rwa [Bool.not_eq_true'] at h
    unfold rigRotation
    dsimp only
    rw [if_neg (by rw [hcond]; exact Bool.false_ne_true)]

/-- The identity quaternion, used as a concrete bone rotation. -/
noncomputable def qId : Quat := ⟨0, 0, 0, 1⟩

/-- A concrete rig resolving every bone. -/
noncomputable def witnessRig : Rig := fun _ => some qId

/-- A concrete, fully captured rest-pose cache. -/
noncomputable def witnessMap : RigMap := fun _ => some qId

/-- A concrete frame: full torso above threshold, right elbow above
threshold, left elbow below threshold (gated out). -/
def witnessFrame : List Keypoint :=
  [⟨"left_shoulder", 100, 100, some 0.9⟩,
   ⟨"right_shoulder", 200, 100, some 0.9⟩,
   ⟨"left_hip", 120, 200, some 0.9⟩,
   ⟨"right_hip", 180, 200, some 0.9⟩,
   ⟨"right_elbow", 220, 150, some 0.9⟩,
   ⟨"left_elbow", 90, 150, some 0.1⟩]

theorem gateFail_resets_all_bones_witness :
    torsoGatePasses [] = false ∧
    ((∀ b, (applyPoseToVRMFromKeypoints witnessRig [] witnessMap).1 b =
        resetBonesToInitial witnessRig (effectiveMap witnessRig witnessMap) b) ∧
     (∀ b q, effectiveMap witnessRig witnessMap b = some q →
        ((witnessRig b)).isSome →
        (applyPoseToVRMFromKeypoints witnessRig [] witnessMap).1 b = some q)) :=
  ⟨rfl, gateFail_resets_all_bones witnessRig witnessMap [] rfl⟩

theorem witnessFrame_ls : getKeypoint witnessFrame "left_shoulder"
    MIN_KEYPOINT_SCORE = some ⟨"left_shoulder", 100, 100, some 0.9⟩ := by
  unfold getKeypoint witnessFrame
  rw [List.find?_cons_of_pos _ (by decide)]
  norm_num [MIN_KEYPOINT_SCORE]

theorem witnessFrame_rs : getKeypoint witnessFrame "right_shoulder"
    MIN_KEYPOINT_SCORE = some ⟨"right_shoulder", 200, 100, some 0.9⟩ := by
  unfold getKeypoint witnessFrame
  rw [List.find?_cons_of_neg _ (by decide), List.find?_cons_of_pos _ (by decide)]
  norm_num [MIN_KEYPOINT_SCORE]

theorem witnessFrame_lh : getKeypoint witnessFrame "left_hip"
    MIN_KEYPOINT_SCORE = some ⟨"left_hip", 120, 200, some 0.9⟩ := by
  unfold getKeypoint witnessFrame
  rw [List.find?_cons_of_neg _ (by decide), List.find?_cons_of_neg _ (by decide),
    List.find?_cons_of_pos _ (by decide)]
  norm_num [MIN_KEYPOINT_SCORE]

theorem witnessFrame_rh : getKeypoint witnessFrame "right_hip"
    MIN_KEYPOINT_SCORE = some ⟨"right_hip", 180, 200, some 0.9⟩ := by
  unfold getKeypoint witnessFrame
  rw [List.find?_cons_of_neg _ (by decide), List.find?_cons_of_neg _ (by decide),
    List.find?_cons_of_neg _ (by decide), List.find?_cons_of_pos _ (by decide)]
  norm_num [MIN_KEYPOINT_SCORE]

theorem witnessFrame_re : getKeypoint witnessFrame "right_elbow"
    MIN_KEYPOINT_SCORE = some ⟨"right_elbow", 220, 150, some 0.9⟩ := by
  unfold getKeypoint witnessFrame
  rw [List.find?_cons_of_neg _ (by decide), List.find?_cons_of_neg _ (by decide),
    List.find?_cons_of_neg _ (by decide), List.find?_cons_of_neg _ (by decide),
    List.find?_cons_of_pos _ (by decide)]
  norm_num [MIN_KEYPOINT_SCORE]

theorem witnessFrame_le : getKeypoint witnessFrame "left_elbow"
    MIN_KEYPOINT_SCORE = none := by
  unfold getKeypoint witnessFrame
  rw [List.find?_cons_of_neg _ (by decide), List.find?_cons_of_neg _ (by decide),
    List.find?_cons_of_neg _ (by decide), List.find?_cons_of_neg _ (by decide),
    List.find?_cons_of_neg _ (by decide), List.find?_cons_of_pos _ (by decide)]
  norm_num [MIN_KEYPOINT_SCORE]

theorem gating_threshold_spec_witness :
    getKeypoint witnessFrame "left_shoulder" MIN_KEYPOINT_SCORE
        = some ⟨"left_shoulder", 100, 100, some 0.9⟩ ∧
    byName004 witnessFrame "left_shoulder"
        = some ⟨"left_shoulder", 100, 100, some 0.9⟩ := by
  constructor
  · exact (gating_threshold_spec witnessFrame "left_shoulder"
      MIN_KEYPOINT_SCORE).2.1 ⟨"left_shoulder", 100, 100, some 0.9⟩
      (by norm_num [witnessFrame]) rfl (by norm_num [MIN_KEYPOINT_SCORE])
      (by norm_num [witnessFrame]; decide)
  · exact (gating_threshold_spec witnessFrame "left_shoulder"
      MIN_KEYPOINT_SCORE).2.2.2 ⟨"left_shoulder", 100, 100, some 0.9⟩
      (by norm_num [witnessFrame]) rfl (by decide)
      (by norm_num [scoreOk004])
      (by norm_num [witnessFrame]; decide)

theorem signedAngle_atan2_range_witness :
    signedAngleBetweenVecs2D ⟨1, 0⟩ ⟨0, 1⟩
        = atan2 (((⟨1, 0⟩ : Vec2)).x * ((⟨0, 1⟩ : Vec2)).y
              - ((⟨1, 0⟩ : Vec2)).y * ((⟨0, 1⟩ : Vec2)).x)
            (((⟨1, 0⟩ : Vec2)).x * ((⟨0, 1⟩ : Vec2)).x
              + ((⟨1, 0⟩ : Vec2)).y * ((⟨0, 1⟩ : Vec2)).y) ∧
      -Real.pi < signedAngleBetweenVecs2D ⟨1, 0⟩ ⟨0, 1⟩ ∧
      signedAngleBetweenVecs2D ⟨1, 0⟩ ⟨0, 1⟩ ≤ Real.pi :=
  signedAngle_atan2_range ⟨1, 0⟩ ⟨0, 1⟩
    (fun hc => one_ne_zero hc.1) (fun hc => one_ne_zero hc.2)

theorem witnessFrame_nose : getKeypoint witnessFrame "nose"
    MIN_KEYPOINT_SCORE = none := by
  unfold getKeypoint witnessFrame
  rw [List.find?_cons_of_neg _ (by decide), List.find?_cons_of_neg _ (by decide),
    List.find?_cons_of_neg _ (by decide), List.find?_cons_of_neg _ (by decide),
    List.find?_cons_of_neg _ (by decide), List.find?_cons_of_neg _ (by decide)]
  rfl

theorem segment_isolation_frame_effect_witness :
    (applyPoseToVRMFromKeypoints witnessRig witnessFrame witnessMap).1
        BoneName.hips
        = solvedBone witnessRig witnessMap BoneName.hips
            ⟨torsoPitch ⟨"left_shoulder", 100, 100, some 0.9⟩
              ⟨"right_shoulder", 200, 100, some 0.9⟩
              ⟨"left_hip", 120, 200, some 0.9⟩
              ⟨"right_hip", 180, 200, some 0.9⟩ * 0.3, 0, 0⟩ ∧
    (applyPoseToVRMFromKeypoints witnessRig witnessFrame witnessMap).1
        BoneName.neck = witnessRig BoneName.neck ∧
    (applyPoseToVRMFromKeypoints witnessRig witnessFrame witnessMap).1
        BoneName.leftUpperArm = witnessRig BoneName.leftUpperArm ∧
    (applyPoseToVRMFromKeypoints witnessRig witnessFrame witnessMap).1
        BoneName.rightUpperArm
        = solvedBone witnessRig witnessMap BoneName.rightUpperArm
            ⟨0, 0, rightAbduction ⟨"right_shoulder", 200, 100, some 0.9⟩
              ⟨"right_elbow", 220, 150, some 0.9⟩⟩ := by
  have W := segment_isolation_frame_effect witnessRig witnessMap witnessFrame
    ⟨"left_shoulder", 100, 100, some 0.9⟩
    ⟨"right_shoulder", 200, 100, some 0.9⟩
    ⟨"left_hip", 120, 200, some 0.9⟩
    ⟨"right_hip", 180, 200, some 0.9⟩
    rfl witnessFrame_ls witnessFrame_rs witnessFrame_lh witnessFrame_rh
  exact ⟨W.1, (W.2.2.2.1 witnessFrame_nose).1,
    W.2.2.2.2.2.1 witnessFrame_le,
    W.2.2.2.2.2.2.2.2.1 ⟨"right_elbow", 220, 150, some 0.9⟩ witnessFrame_re⟩

theorem smoothing_geometric_convergence_witness :
    (0:ℝ) < 1/2 ∧ (1/2:ℝ) ≤ 1 ∧ (0:ℝ) ≤ 1 ∧
    ((∀ t, slerpAngleSeq (1/2) 1 (t + 1)
        = (1 - 1/2) * slerpAngleSeq (1/2) 1 t) ∧
     (∀ ε : ℝ, 0 < ε → ∃ N : ℕ, ∀ t, N ≤ t →
        slerpAngleSeq (1/2) 1 t < ε)) :=
  ⟨by norm_num, by norm_num, by norm_num,
   smoothing_geometric_convergence (1/2) 1 (by norm_num) (by norm_num)
     (by norm_num)⟩

theorem vec2FromKeypoints_safe_unit_witness :
    vec2FromKeypoints ⟨"a", 0, 0, none⟩ ⟨"b", 0, 0, none⟩ = ⟨0, 0⟩ ∧
    (vec2FromKeypoints ⟨"a", 0, 0, none⟩ ⟨"b", 3, 4, none⟩).x *
        (vec2FromKeypoints ⟨"a", 0, 0, none⟩ ⟨"b", 3, 4, none⟩).x +
      (vec2FromKeypoints ⟨"a", 0, 0, none⟩ ⟨"b", 3, 4, none⟩).y *
        (vec2FromKeypoints ⟨"a", 0, 0, none⟩ ⟨"b", 3, 4, none⟩).y = 1 :=
  ⟨(vec2FromKeypoints_safe_unit ⟨"a", 0, 0, none⟩ ⟨"b", 0, 0, none⟩).1
      ⟨rfl, rfl⟩,
   (vec2FromKeypoints_safe_unit ⟨"a", 0, 0, none⟩ ⟨"b", 3, 4, none⟩).2
      (by norm_num)⟩

theorem rigRotation_invalid_no_mutation_witness :
    rotationInvalid (some ⟨JSValue.nan, JSValue.num 1, JSValue.num 2⟩)
        = true ∧
    rigRotation qId (some ⟨JSValue.nan, JSValue.num 1, JSValue.num 2⟩)
        1 (3/10) = qId :=
  ⟨rfl, rigRotation_invalid_no_mutation qId
    (some ⟨JSValue.nan, JSValue.num 1, JSValue.num 2⟩) 1 (3/10) rfl⟩
